import Mathlib

/-!
Verification development for the AC phasor converter
(`convert_form_app.py`).

The program converts a single complex quantity between rectangular form
`x + j y` and polar/exponential form `M ∠ θ` / `M e^(j θ)`, wraps angles
into a canonical display range, renders LaTeX strings at a chosen
precision, and shows a numeric summary recomputed from the complex value.

Embedding conventions:
* Python floats are modelled as real numbers (`ℝ`).
* Library primitives are modelled by their mathematical definitions:
  `math.radians d = d·π/180`, `math.degrees r = r·180/π`,
  `math.hypot x y = √(x² + y²)`, and `math.atan2 y x` is the principal
  argument of the complex number `x + y·i` (`Complex.arg`), which agrees
  with `atan2` on all real inputs, including `atan2 0 0 = 0`.
* Python float `a % m` is `a - m·⌊a/m⌋` (result has the sign of `m`).
* Fixed-point formatting `f"{v:.{p}f}"` is modelled as: a minus sign when
  `v < 0`, then the decimal digits of `round(|v|·10^p)` with `p` digits
  after the point.  Rounding of exact ties is modelled round-half-up;
  no input appearing in the verified statements is a tie.
* Python's builtin `float(text)` is modelled for plain decimal literals
  (optional sign, digits, optional decimal point); every other text
  fails to parse, which is all that the claims need.
-/

namespace Phasor

open Real

/-- Model of `math.radians`: degrees to radians. -/
noncomputable def radians (d : ℝ) : ℝ := d * (Real.pi / 180)

/-- Model of `math.degrees`: radians to degrees. -/
noncomputable def degrees (r : ℝ) : ℝ := r * (180 / Real.pi)

/-- Model of `math.hypot x y`. -/
noncomputable def hypot (x y : ℝ) : ℝ := Real.sqrt (x ^ 2 + y ^ 2)

/-- Model of `math.atan2 y x` (also `np.angle (x + y·i)`): the principal
argument of `x + y·i`, with values in `(-π, π]` and `atan2 0 0 = 0`. -/
noncomputable def atan2 (y x : ℝ) : ℝ := Complex.arg ⟨x, y⟩

/-- Source `to_rect`: polar/exponential `(mag ∠ ang)` to rectangular
`(x, y)`; the angle is converted to radians first when `deg` is set. -/
noncomputable def to_rect (mag ang : ℝ) (deg : Bool) : ℝ × ℝ :=
  let theta := if deg then radians ang else ang
  (mag * Real.cos theta, mag * Real.sin theta)

/-- Source `to_polar`: rectangular `(x, y)` to polar `(mag, ang)`; the
angle is produced in radians and converted to degrees when `deg` is set. -/
noncomputable def to_polar (x y : ℝ) (deg : Bool) : ℝ × ℝ :=
  let mag := hypot x y
  let ang := atan2 y x
  if deg then (mag, degrees ang) else (mag, ang)

/-- Model of Python float `a % m`: `a - m·⌊a/m⌋`. -/
noncomputable def pymod (a m : ℝ) : ℝ := a - m * ⌊a / m⌋

/-- Source `wrap_angle`: `((ang + 180) % 360) - 180` in degree mode and
`((ang + π) % 2π) - π` in radian mode. -/
noncomputable def wrap_angle (ang : ℝ) (deg : Bool) : ℝ :=
  if deg then pymod (ang + 180) 360 - 180
  else pymod (ang + Real.pi) (2 * Real.pi) - Real.pi

/-- Decimal digit character for a value `d < 10`. -/
def digitChar (d : ℕ) : Char := Char.ofNat (48 + d)

/-- Fuelled most-significant-first decimal digit expansion. -/
def natDigitsGo : ℕ → ℕ → List Char
  | 0, _ => []
  | fuel + 1, n =>
    if n < 10 then [digitChar n]
    else natDigitsGo fuel (n / 10) ++ [digitChar (n % 10)]

/-- Decimal digits of a natural number, most significant first. -/
def natDigits (n : ℕ) : List Char := natDigitsGo (n + 1) n

/-- Digit characters of the fixed-point rendering of the nonnegative
value `m / 10^p` with exactly `p` digits after the decimal point
(no decimal point at all when `p = 0`), as printed by `f"{v:.{p}f}"`. -/
def renderNatL (m p : ℕ) : List Char :=
  if p = 0 then natDigits m
  else
    let fracDigits := natDigits (m % 10 ^ p)
    natDigits (m / 10 ^ p) ++ ['.'] ++
      List.replicate (p - fracDigits.length) '0' ++ fracDigits

/-- Model of Python fixed-point formatting `f"{x:.{p}f}"`: a minus sign
when `x < 0`, then the digits of `|x|` rounded to `p` decimal places. -/
noncomputable def fmt (x : ℝ) (p : ℕ) : String :=
  String.mk ((if x < 0 then ['-'] else []) ++
    renderNatL (round (|x| * 10 ^ p)).toNat p)

/-- Source `complex_latex`: LaTeX for `x + j y` with the sign of the
imaginary part rendered explicitly and its magnitude taken absolute. -/
noncomputable def complex_latex (x y : ℝ) (p : ℕ) : String :=
  let sign := if 0 ≤ y then "+" else "-"
  "\\displaystyle " ++ fmt x p ++ "\\ " ++ sign ++ "\\ j" ++ fmt |y| p

/-- Source `polar_latex`: LaTeX pair `(mag ∠ ang, mag·e^(j ang))`, with a
degree marker appended to the angle exactly in degree mode. -/
noncomputable def polar_latex (mag ang : ℝ) (p : ℕ) (deg : Bool) :
    String × String :=
  let angle_tex := if deg then fmt ang p ++ "^\\circ" else fmt ang p
  ("\\displaystyle " ++ fmt mag p ++ "\\,\\angle\\," ++ angle_tex,
   "\\displaystyle " ++ fmt mag p ++ "\\,e^\x7bj\\," ++ angle_tex ++ "\x7d")

/-- Test whether the first list is an initial segment of the second. -/
def listStarts : List Char → List Char → Bool
  | [], _ => true
  | _ :: _, [] => false
  | a :: s, b :: t => a == b && listStarts s t

/-- Test whether the first list occurs contiguously inside the second. -/
def listSub (s : List Char) : List Char → Bool
  | [] => s.isEmpty
  | b :: t => listStarts s (b :: t) || listSub s t

/-- Test whether the string `needle` occurs inside the string `hay`;
used to state the "arrow string contains ..." scenarios. -/
def containsSub (needle hay : String) : Bool :=
  listSub needle.data hay.data

/-- Value of a list of decimal digit characters, most significant first. -/
def digitsVal (cs : List Char) : ℕ :=
  cs.foldl (fun a c => 10 * a + (c.toNat - 48)) 0

/-- Model of Python's builtin `float(text)` restricted to plain decimal
literals: optional sign, then digits with at most one decimal point and
at least one digit.  Exponents and the `inf`/`nan` spellings are not
modelled; no claim depends on them.  A successful parse returns the
scaled integer mantissa `m` and the count `k` of digits after the
decimal point; the parsed value is `m / 10^k`. -/
def parseFloat? (s : String) : Option (ℤ × ℕ) :=
  let cs := s.toList
  let body : List Char :=
    match cs with
    | '-' :: t => t
    | '+' :: t => t
    | _ => cs
  let sgn : ℤ :=
    match cs with
    | '-' :: _ => -1
    | _ => 1
  match body.splitOn '.' with
  | [ip] =>
    if ip.isEmpty then none
    else if ip.all Char.isDigit then some (sgn * (digitsVal ip : ℤ), 0)
    else none
  | [ip, fp] =>
    if ip.isEmpty && fp.isEmpty then none
    else if ip.all Char.isDigit && fp.all Char.isDigit then
      some (sgn * ((digitsVal ip : ℤ) * 10 ^ fp.length + (digitsVal fp : ℤ)),
            fp.length)
    else none
  | _ => none

/-- Numeric value actually used for a text field: the parsed value, with
`0.0` substituted when parsing fails (the `try/except ValueError` wrapper
around `float(...)` in both input branches). -/
noncomputable def parsedVal (s : String) : ℝ :=
  ((parseFloat? s).map (fun mk => (mk.1 : ℝ) / 10 ^ mk.2)).getD 0

/-- Angle of the numeric-summary view and of the plot annotation before
display wrapping: `math.degrees(np.angle(z))` in degree mode, `np.angle(z)`
in radian mode.  The UI then rounds it to `precision + 2` places for the
summary display. -/
noncomputable def summary_angle (z : ℂ) (deg : Bool) : ℝ :=
  if deg then degrees (Complex.arg z) else Complex.arg z

/-- Result record of the Polar → Rectangular branch. -/
structure P2RResult where
  x : ℝ
  y : ℝ
  z : ℂ
  rect_tex : String
  disp_ang : ℝ
  arrow : String
  expo : String
  warn : Bool
  summary_ang : ℝ
  plot_ang : ℝ

/-- Polar → Rectangular branch of the app: parse the two text fields
(substituting `0.0` on parse failure), warn on a parsed non-positive
magnitude, convert with `to_rect` from the unwrapped angle, and build the
phasor display from the wrapped angle only when wrapping is requested. -/
noncomputable def p2r_session (magText angText : String) (deg wrapb : Bool)
    (p : ℕ) : P2RResult :=
  let mag := parsedVal magText
  let ang := parsedVal angText
  let xy := to_rect mag ang deg
  let z : ℂ := ⟨xy.1, xy.2⟩
  let disp := if wrapb then wrap_angle ang deg else ang
  let pl := polar_latex mag disp p deg
  { x := xy.1
    y := xy.2
    z := z
    rect_tex := complex_latex xy.1 xy.2 p
    disp_ang := disp
    arrow := pl.1
    expo := pl.2
    warn := match parseFloat? magText with
            | some mk => decide (mk.1 ≤ 0)
            | none => false
    summary_ang := summary_angle z deg
    plot_ang := if wrapb then wrap_angle (summary_angle z deg) deg
                else summary_angle z deg }

/-- Result record of the Rectangular → Polar branch. -/
structure R2PResult where
  x : ℝ
  y : ℝ
  z : ℂ
  mag : ℝ
  ang : ℝ
  rect_tex : String
  arrow : String
  expo : String
  summary_ang : ℝ
  plot_ang : ℝ

/-- Rectangular → Polar branch of the app: parse the two text fields
(substituting `0.0` on parse failure), convert with `to_polar`, wrap the
computed polar angle itself when wrapping is requested, and format. -/
noncomputable def r2p_session (xText yText : String) (deg wrapb : Bool)
    (p : ℕ) : R2PResult :=
  let x := parsedVal xText
  let y := parsedVal yText
  let ma := to_polar x y deg
  let ang := if wrapb then wrap_angle ma.2 deg else ma.2
  let z : ℂ := ⟨x, y⟩
  let pl := polar_latex ma.1 ang p deg
  { x := x
    y := y
    z := z
    mag := ma.1
    ang := ang
    rect_tex := complex_latex x y p
    arrow := pl.1
    expo := pl.2
    summary_ang := summary_angle z deg
    plot_ang := if wrapb then wrap_angle (summary_angle z deg) deg
                else summary_angle z deg }

/-! Helper lemmas about the Python float modulus and angle wrapping. -/

lemma pymod_eq_fract (a : ℝ) {m : ℝ} (hm : m ≠ 0) :
    pymod a m = m * Int.fract (a / m) := by
  unfold pymod
  rw [Int.fract]
  field_simp

lemma pymod_nonneg (a : ℝ) {m : ℝ} (hm : 0 < m) : 0 ≤ pymod a m := by
  rw [pymod_eq_fract a hm.ne']
  exact mul_nonneg hm.le (Int.fract_nonneg _)

lemma pymod_lt (a : ℝ) {m : ℝ} (hm : 0 < m) : pymod a m < m := by
  rw [pymod_eq_fract a hm.ne']
  calc m * Int.fract (a / m) < m * 1 :=
        mul_lt_mul_of_pos_left (Int.fract_lt_one _) hm
    _ = m := mul_one m

lemma pymod_eq_self {a m : ℝ} (h0 : 0 ≤ a) (h1 : a < m) : pymod a m = a := by
  have hm : 0 < m := lt_of_le_of_lt h0 h1
  unfold pymod
  have hfl : ⌊a / m⌋ = 0 := by
    rw [Int.floor_eq_zero_iff]
    exact ⟨div_nonneg h0 hm.le, (div_lt_one hm).mpr h1⟩
  rw [hfl]
  simp

lemma wrap_angle_true_eq (a : ℝ) :
    wrap_angle a true = pymod (a + 180) 360 - 180 := rfl

lemma wrap_angle_false_eq (a : ℝ) :
    wrap_angle a false = pymod (a + Real.pi) (2 * Real.pi) - Real.pi := rfl

lemma wrap_angle_mem_deg (a : ℝ) :
    wrap_angle a true ∈ Set.Ico (-180 : ℝ) 180 := by
  have h0 := pymod_nonneg (a + 180) (show (0:ℝ) < 360 by norm_num)
  have h1 := pymod_lt (a + 180) (show (0:ℝ) < 360 by norm_num)
  rw [Set.mem_Ico, wrap_angle_true_eq]
  constructor <;> linarith

lemma wrap_angle_mem_rad (a : ℝ) :
    wrap_angle a false ∈ Set.Ico (-Real.pi) Real.pi := by
  have hm : (0:ℝ) < 2 * Real.pi := by positivity
  have h0 := pymod_nonneg (a + Real.pi) hm
  have h1 := pymod_lt (a + Real.pi) hm
  rw [Set.mem_Ico, wrap_angle_false_eq]
  constructor <;> linarith

/-! Helper lemmas connecting the transform pair with `Complex.arg`. -/

lemma hypot_eq_abs (x y : ℝ) : hypot x y = Complex.abs ⟨x, y⟩ := by
  rw [hypot, Complex.abs_apply, Complex.normSq_mk]
  ring_nf

lemma mk_eq_zero_iff (x y : ℝ) : (⟨x, y⟩ : ℂ) = 0 ↔ x = 0 ∧ y = 0 := by
  rw [Complex.ext_iff]
  simp [Complex.zero_re, Complex.zero_im]

lemma hypot_mul_cos (x y : ℝ) : hypot x y * Real.cos (atan2 y x) = x := by
  by_cases hz : (⟨x, y⟩ : ℂ) = 0
  · obtain ⟨hx, hy⟩ := (mk_eq_zero_iff x y).mp hz
    subst hx; subst hy
    simp [hypot]
  · have habs : Complex.abs ⟨x, y⟩ ≠ 0 := Complex.abs.ne_zero hz
    rw [hypot_eq_abs, atan2, Complex.cos_arg hz]
    field_simp

lemma hypot_mul_sin (x y : ℝ) : hypot x y * Real.sin (atan2 y x) = y := by
  by_cases hz : (⟨x, y⟩ : ℂ) = 0
  · obtain ⟨hx, hy⟩ := (mk_eq_zero_iff x y).mp hz
    subst hx; subst hy
    simp [hypot]
  · have habs : Complex.abs ⟨x, y⟩ ≠ 0 := Complex.abs.ne_zero hz
    rw [hypot_eq_abs, atan2, Complex.sin_arg]
    field_simp

lemma radians_degrees (r : ℝ) : radians (degrees r) = r := by
  rw [radians, degrees]
  field_simp

lemma degrees_pi_div_six : degrees (Real.pi / 6) = 30 := by
  rw [degrees]
  field_simp
  ring

lemma atan2_zero_zero : atan2 0 0 = 0 := by
  rw [atan2]
  have h : (⟨0, 0⟩ : ℂ) = 0 := by rw [mk_eq_zero_iff]; exact ⟨rfl, rfl⟩
  rw [h, Complex.arg_zero]

lemma sqrt3_gt : (1.7320508 : ℝ) < Real.sqrt 3 := by
  nlinarith [Real.sq_sqrt (show (0:ℝ) ≤ 3 by norm_num), Real.sqrt_nonneg 3]

lemma sqrt3_lt : Real.sqrt 3 < 1.7320509 := by
  nlinarith [Real.sq_sqrt (show (0:ℝ) ≤ 3 by norm_num), Real.sqrt_nonneg 3]

lemma roundtrip_exact (x y : ℝ) (u : Bool) :
    to_rect (to_polar x y u).1 (to_polar x y u).2 u = (x, y) := by
  cases u
  · have hp : to_polar x y false = (hypot x y, atan2 y x) := rfl
    rw [hp]
    have hr : to_rect (hypot x y) (atan2 y x) false =
        (hypot x y * Real.cos (atan2 y x), hypot x y * Real.sin (atan2 y x)) := rfl
    rw [hr]
    exact Prod.ext (hypot_mul_cos x y) (hypot_mul_sin x y)
  · have hp : to_polar x y true = (hypot x y, degrees (atan2 y x)) := rfl
    rw [hp]
    have hr : to_rect (hypot x y) (degrees (atan2 y x)) true =
        (hypot x y * Real.cos (radians (degrees (atan2 y x))),
         hypot x y * Real.sin (radians (degrees (atan2 y x)))) := rfl
    rw [hr, radians_degrees]
    exact Prod.ext (hypot_mul_cos x y) (hypot_mul_sin x y)

/-- C1: for every pair of real inputs `(x, y)` and both angle units,
`to_rect` applied to the output of `to_polar` returns `(x, y)` within
`1e-9` absolute error in each component (in the real-number model the
round trip is exact, so the error is `0`). -/
theorem C1_round_trip (x y : ℝ) (u : Bool) :
    |(to_rect (to_polar x y u).1 (to_polar x y u).2 u).1 - x| ≤ 1 / 10 ^ 9 ∧
    |(to_rect (to_polar x y u).1 (to_polar x y u).2 u).2 - y| ≤ 1 / 10 ^ 9 := by
  rw [roundtrip_exact x y u]
  norm_num

/-- C2: `to_rect` converts the angle to radians exactly when the unit is
degrees and returns `(mag·cos θ, mag·sin θ)`; in particular
`to_rect 5 30` in degree mode is within `1e-3` of `(4.330, 2.500)`. -/
theorem C2_to_rect_spec :
    (∀ mag ang : ℝ,
        to_rect mag ang true =
          (mag * Real.cos (radians ang), mag * Real.sin (radians ang)) ∧
        to_rect mag ang false = (mag * Real.cos ang, mag * Real.sin ang)) ∧
    |(to_rect 5 30 true).1 - 4.330| ≤ 1 / 10 ^ 3 ∧
    |(to_rect 5 30 true).2 - 2.500| ≤ 1 / 10 ^ 3 := by
  have hth : radians 30 = Real.pi / 6 := by rw [radians]; ring
  have hx : (to_rect 5 30 true).1 = 5 * Real.cos (radians 30) := rfl
  have hy : (to_rect 5 30 true).2 = 5 * Real.sin (radians 30) := rfl
  refine ⟨fun mag ang => ⟨rfl, rfl⟩, ?_, ?_⟩
  · rw [hx, hth, Real.cos_pi_div_six]
    have h1 := sqrt3_gt
    have h2 := sqrt3_lt
    rw [abs_le]
    constructor <;> nlinarith
  · rw [hy, hth, Real.sin_pi_div_six]
    norm_num

/-- C4 (code bug): evaluating the wrap formula `((a + 180) % 360) - 180`
at the boundary maps `180` to `-180` in degree mode and `π` to `-π` in
radian mode, values outside the interval `(-180, 180]` (resp. `(-π, π]`)
promised by the claim and by the function's own docstring — the code's
actual range is `[-180, 180)` (see `wrap_angle_mem_deg` and
`wrap_angle_mem_rad`).  The scenario `wrap 270 = -90` does hold. -/
theorem C4_wrap_boundary :
    wrap_angle 180 true = -180 ∧
    wrap_angle Real.pi false = -Real.pi ∧
    wrap_angle 270 true = -90 := by
  refine ⟨?_, ?_, ?_⟩
  · rw [wrap_angle_true_eq, pymod]
    norm_num
  · rw [wrap_angle_false_eq, pymod,
        show Real.pi + Real.pi = 2 * Real.pi by ring,
        div_self (by positivity : (2 * Real.pi) ≠ 0), Int.floor_one]
    push_cast
    ring
  · rw [wrap_angle_true_eq, pymod]
    norm_num

/-- C5: wrapping is idempotent: `wrap (wrap a) = wrap a` for every real
angle `a` and both angle units. -/
theorem C5_wrap_idempotent (a : ℝ) (u : Bool) :
    wrap_angle (wrap_angle a u) u = wrap_angle a u := by
  cases u
  · obtain ⟨h0, h1⟩ := Set.mem_Ico.mp (wrap_angle_mem_rad a)
    rw [wrap_angle_false_eq (wrap_angle a false),
        pymod_eq_self (by linarith) (by linarith)]
    ring
  · obtain ⟨h0, h1⟩ := Set.mem_Ico.mp (wrap_angle_mem_deg a)
    rw [wrap_angle_true_eq (wrap_angle a true),
        pymod_eq_self (by linarith) (by linarith)]
    ring

lemma arg_of_re_pos {x : ℝ} (y : ℝ) (hx : 0 < x) :
    atan2 y x = Real.arctan (y / x) := by
  have habs : |Complex.arg ⟨x, y⟩| < Real.pi / 2 :=
    Complex.abs_arg_lt_pi_div_two_iff.mpr (Or.inl hx)
  obtain ⟨h1, h2⟩ := abs_lt.mp habs
  have h := Real.arctan_tan (x := Complex.arg ⟨x, y⟩) (by linarith) h2
  rw [Complex.tan_arg] at h
  rw [atan2]
  exact h.symm

lemma self_sub_arctan_mono : Monotone (fun t : ℝ => t - Real.arctan t) := by
  apply monotone_of_deriv_nonneg
  · exact differentiable_id.sub Real.differentiable_arctan
  · intro t
    rw [deriv_sub differentiableAt_id' (Real.differentiable_arctan t),
        Real.deriv_arctan]
    have hpos : (0:ℝ) < 1 + t ^ 2 := by positivity
    have hle : 1 / (1 + t ^ 2) ≤ 1 := by
      rw [div_le_one hpos]
      nlinarith
    have hid : deriv (fun x : ℝ => x) t = 1 := by
      rw [deriv_id'']
    rw [hid]
    linarith

lemma arctan_le_add {b r : ℝ} (hbr : b ≤ r) :
    Real.arctan r ≤ Real.arctan b + (r - b) := by
  have h := self_sub_arctan_mono hbr
  simp only at h
  linarith

lemma arctan_inv_sqrt3 : Real.arctan (1 / Real.sqrt 3) = Real.pi / 6 := by
  rw [← Real.tan_pi_div_six]
  exact Real.arctan_tan (by linarith [Real.pi_pos]) (by linarith [Real.pi_pos])

lemma scenarioB_mag : |(to_polar 4.330127 2.5 true).1 - 5| ≤ 1 / 10 ^ 6 := by
  have h : (to_polar 4.330127 2.5 true).1 = hypot 4.330127 2.5 := rfl
  rw [h, hypot]
  have hv0 : (0:ℝ) ≤ (4.330127:ℝ) ^ 2 + 2.5 ^ 2 := by positivity
  rw [abs_le]
  constructor <;>
    nlinarith [Real.sq_sqrt hv0, Real.sqrt_nonneg ((4.330127:ℝ) ^ 2 + 2.5 ^ 2)]

lemma scenarioB_angle : |(to_polar 4.330127 2.5 true).2 - 30| ≤ 1 / 10 ^ 3 := by
  have hpolar : (to_polar 4.330127 2.5 true).2 = degrees (atan2 2.5 4.330127) := rfl
  have hx : (0:ℝ) < 4.330127 := by norm_num
  have hatan : atan2 2.5 4.330127 = Real.arctan (2.5 / 4.330127) :=
    arg_of_re_pos 2.5 hx
  have hs3 : (0:ℝ) < Real.sqrt 3 := Real.sqrt_pos.mpr (by norm_num)
  have hblt : 1 / Real.sqrt 3 < 2.5 / 4.330127 := by
    have h1 : (1:ℝ) / Real.sqrt 3 < 1 / 1.7320508 :=
      one_div_lt_one_div_of_lt (by norm_num) sqrt3_gt
    have h2 : (1:ℝ) / 1.7320508 = 2.5 / 4.330127 := by norm_num
    linarith
  have hdelta : 2.5 / 4.330127 - 1 / Real.sqrt 3 ≤ 1 / 10 ^ 6 := by
    have h2 : (1:ℝ) / 1.7320509 < 1 / Real.sqrt 3 :=
      one_div_lt_one_div_of_lt hs3 sqrt3_lt
    have h3 : (2.5:ℝ) / 4.330127 - 1 / 1.7320509 ≤ 1 / 10 ^ 6 := by norm_num
    linarith
  have hlow : Real.pi / 6 < Real.arctan (2.5 / 4.330127) := by
    rw [← arctan_inv_sqrt3]
    exact Real.arctan_strictMono hblt
  have hup : Real.arctan (2.5 / 4.330127) ≤ Real.pi / 6 + 1 / 10 ^ 6 := by
    have h := arctan_le_add hblt.le
    rw [arctan_inv_sqrt3] at h
    linarith
  have hdeg : degrees (Real.arctan (2.5 / 4.330127)) - 30 =
      (Real.arctan (2.5 / 4.330127) - Real.pi / 6) * (180 / Real.pi) := by
    rw [degrees]
    field_simp
    ring
  have hpios : (0:ℝ) < 180 / Real.pi := by positivity
  have hub2 : 180 / Real.pi ≤ 60 := by
    rw [div_le_iff₀ Real.pi_pos]
    nlinarith [Real.pi_gt_three]
  have hprod_pos : 0 ≤ (Real.arctan (2.5 / 4.330127) - Real.pi / 6) * (180 / Real.pi) :=
    mul_nonneg (by linarith) hpios.le
  have hprod_ub : (Real.arctan (2.5 / 4.330127) - Real.pi / 6) * (180 / Real.pi) ≤
      1 / 10 ^ 6 * 60 :=
    mul_le_mul (by linarith) hub2 hpios.le (by norm_num)
  rw [hpolar, hatan, abs_le]
  constructor <;> [linarith; linarith]

lemma to_polar_zero (u : Bool) : to_polar 0 0 u = (0, 0) := by
  have hh : hypot 0 0 = 0 := by
    rw [hypot]
    norm_num
  cases u
  · have h : to_polar 0 0 false = (hypot 0 0, atan2 0 0) := rfl
    rw [h, atan2_zero_zero, hh]
  · have h : to_polar 0 0 true = (hypot 0 0, degrees (atan2 0 0)) := rfl
    rw [h, atan2_zero_zero, hh, degrees]
    norm_num

/-- C3: `to_polar` returns the hypotenuse as magnitude and the
two-argument arctangent as angle, converted to degrees exactly when
requested; the angle always lies in `(-π, π]`; in particular
`to_polar 4.330127 2.5` in degree mode is within `1e-6` of magnitude `5`
and within `1e-3` of angle `30`, and `to_polar 0 0` is `(0, 0)`. -/
theorem C3_to_polar_spec :
    (∀ x y : ℝ, to_polar x y true = (hypot x y, degrees (atan2 y x)) ∧
                to_polar x y false = (hypot x y, atan2 y x)) ∧
    (∀ x y : ℝ, atan2 y x ∈ Set.Ioc (-Real.pi) Real.pi) ∧
    |(to_polar 4.330127 2.5 true).1 - 5| ≤ 1 / 10 ^ 6 ∧
    |(to_polar 4.330127 2.5 true).2 - 30| ≤ 1 / 10 ^ 3 ∧
    (∀ u : Bool, to_polar 0 0 u = (0, 0)) :=
  ⟨fun _ _ => ⟨rfl, rfl⟩, fun _ _ => Complex.arg_mem_Ioc _,
   scenarioB_mag, scenarioB_angle, to_polar_zero⟩

/-- C6: asymmetry of wrapping between the two modes.  In the
Polar → Rectangular branch with wrapping on, the rectangular result is
computed by `to_rect` from the unwrapped user-supplied angle (and is the
same as with wrapping off), while the displayed phasor strings use the
wrapped angle; in the Rectangular → Polar branch with wrapping on, the
wrap is applied to the computed polar angle itself before formatting. -/
theorem C6_wrap_asymmetry (magText angText xText yText : String)
    (deg : Bool) (p : ℕ) :
    ((p2r_session magText angText deg true p).x =
        (to_rect (parsedVal magText) (parsedVal angText) deg).1 ∧
     (p2r_session magText angText deg true p).y =
        (to_rect (parsedVal magText) (parsedVal angText) deg).2 ∧
     (p2r_session magText angText deg true p).x =
        (p2r_session magText angText deg false p).x ∧
     (p2r_session magText angText deg true p).y =
        (p2r_session magText angText deg false p).y ∧
     (p2r_session magText angText deg true p).disp_ang =
        wrap_angle (parsedVal angText) deg ∧
     (p2r_session magText angText deg true p).arrow =
        (polar_latex (parsedVal magText)
          (wrap_angle (parsedVal angText) deg) p deg).1) ∧
    ((r2p_session xText yText deg true p).ang =
        wrap_angle (to_polar (parsedVal xText) (parsedVal yText) deg).2 deg ∧
     (r2p_session xText yText deg true p).arrow =
        (polar_latex (to_polar (parsedVal xText) (parsedVal yText) deg).1
          (wrap_angle (to_polar (parsedVal xText) (parsedVal yText) deg).2 deg)
          p deg).1) :=
  ⟨⟨rfl, rfl, rfl, rfl, rfl, rfl⟩, rfl, rfl⟩

lemma parsedVal_none {s : String} (h : parseFloat? s = none) :
    parsedVal s = 0 := by
  rw [parsedVal, h]
  rfl

/-- C7: when a text field fails to parse, the value `0.0` is substituted
for that field and the conversion still produces its result (the model
is a total function); in particular in Polar → Rectangular mode with
magnitude text `"abc"` the rectangular result is `(0, 0)`. -/
theorem C7_parse_failure_zero :
    (∀ (magText angText : String) (deg w : Bool) (p : ℕ),
      parseFloat? magText = none →
        (p2r_session magText angText deg w p).x =
          (to_rect 0 (parsedVal angText) deg).1 ∧
        (p2r_session magText angText deg w p).y =
          (to_rect 0 (parsedVal angText) deg).2) ∧
    (∀ (magText angText : String) (deg w : Bool) (p : ℕ),
      parseFloat? angText = none →
        (p2r_session magText angText deg w p).x =
          (to_rect (parsedVal magText) 0 deg).1 ∧
        (p2r_session magText angText deg w p).y =
          (to_rect (parsedVal magText) 0 deg).2) ∧
    (∀ (xText yText : String) (deg w : Bool) (p : ℕ),
      parseFloat? xText = none →
        (r2p_session xText yText deg w p).mag =
          (to_polar 0 (parsedVal yText) deg).1) ∧
    (∀ (xText yText : String) (deg w : Bool) (p : ℕ),
      parseFloat? yText = none →
        (r2p_session xText yText deg w p).mag =
          (to_polar (parsedVal xText) 0 deg).1) ∧
    ((p2r_session "abc" "30.0" true true 3).x = 0 ∧
     (p2r_session "abc" "30.0" true true 3).y = 0) := by
  refine ⟨?_, ?_, ?_, ?_, ?_, ?_⟩
  · intro magText angText deg w p h
    rw [show (p2r_session magText angText deg w p).x =
          (to_rect (parsedVal magText) (parsedVal angText) deg).1 from rfl,
        show (p2r_session magText angText deg w p).y =
          (to_rect (parsedVal magText) (parsedVal angText) deg).2 from rfl,
        parsedVal_none h]
    exact ⟨rfl, rfl⟩
  · intro magText angText deg w p h
    rw [show (p2r_session magText angText deg w p).x =
          (to_rect (parsedVal magText) (parsedVal angText) deg).1 from rfl,
        show (p2r_session magText angText deg w p).y =
          (to_rect (parsedVal magText) (parsedVal angText) deg).2 from rfl,
        parsedVal_none h]
    exact ⟨rfl, rfl⟩
  · intro xText yText deg w p h
    rw [show (r2p_session xText yText deg w p).mag =
          (to_polar (parsedVal xText) (parsedVal yText) deg).1 from rfl,
        parsedVal_none h]
  · intro xText yText deg w p h
    rw [show (r2p_session xText yText deg w p).mag =
          (to_polar (parsedVal xText) (parsedVal yText) deg).1 from rfl,
        parsedVal_none h]
  · have h0 : parsedVal "abc" = 0 := parsedVal_none (by decide)
    rw [show (p2r_session "abc" "30.0" true true 3).x =
          parsedVal "abc" * Real.cos (radians (parsedVal "30.0")) from rfl,
        h0, zero_mul]
  · have h0 : parsedVal "abc" = 0 := parsedVal_none (by decide)
    rw [show (p2r_session "abc" "30.0" true true 3).y =
          parsedVal "abc" * Real.sin (radians (parsedVal "30.0")) from rfl,
        h0, zero_mul]

/-- Witness for C7: the magnitude text `"abc"` indeed fails to parse and
the substitution theorem applies to it. -/
theorem C7_parse_failure_zero_witness :
    parseFloat? "abc" = none ∧
    (p2r_session "abc" "30.0" true true 3).x =
      (to_rect 0 (parsedVal "30.0") true).1 :=
  ⟨by decide, (C7_parse_failure_zero.1 "abc" "30.0" true true 3 (by decide)).1⟩

lemma digitChar_isDigit {d : ℕ} (h : d < 10) :
    (digitChar d).isDigit = true := by
  interval_cases d <;> decide

lemma natDigitsGo_digits (f : ℕ) :
    ∀ n : ℕ, ∀ c ∈ natDigitsGo f n, c.isDigit = true := by
  induction f with
  | zero =>
    intro n c hc
    simp [natDigitsGo] at hc
  | succ f ih =>
    intro n c hc
    rw [natDigitsGo] at hc
    by_cases h : n < 10
    · rw [if_pos h] at hc
      rw [List.mem_singleton] at hc
      subst hc
      exact digitChar_isDigit h
    · rw [if_neg h] at hc
      rw [List.mem_append, List.mem_singleton] at hc
      rcases hc with h1 | h2
      · exact ih _ c h1
      · subst h2
        exact digitChar_isDigit (Nat.mod_lt n (by norm_num))

lemma renderNatL_chars (m p : ℕ) :
    ∀ c ∈ renderNatL m p, c.isDigit = true ∨ c = '.' := by
  intro c hc
  rw [renderNatL] at hc
  by_cases hp : p = 0
  · rw [if_pos hp] at hc
    exact Or.inl (natDigitsGo_digits _ _ c hc)
  · rw [if_neg hp] at hc
    simp only [List.mem_append, List.mem_singleton, List.mem_replicate] at hc
    rcases hc with ((h | h) | h) | h
    · exact Or.inl (natDigitsGo_digits _ _ c h)
    · exact Or.inr h
    · rw [h.2]
      exact Or.inl (by decide)
    · exact Or.inl (natDigitsGo_digits _ _ c h)

lemma renderNatL_no_minus (m p : ℕ) :
    (renderNatL m p).all (fun c => c != '-') = true := by
  rw [List.all_eq_true]
  intro c hc
  rcases renderNatL_chars m p c hc with h | h
  · have hne : c ≠ '-' := by
      intro he
      rw [he] at h
      exact absurd h (by decide)
    simpa [bne_iff_ne] using hne
  · rw [h]
    decide

lemma fmt_nonneg_eq {x : ℝ} (hx : 0 ≤ x) (p : ℕ) :
    fmt x p = String.mk (renderNatL (round (x * 10 ^ p)).toNat p) := by
  rw [fmt, if_neg (not_lt.mpr hx), abs_of_nonneg hx]
  simp

/-- C8: `complex_latex` renders the real part at precision `p`, then the
sign character `+` when `imag ≥ 0` and `-` otherwise, then `j` followed
by `|imag|` at precision `p`; the rendered magnitude of the imaginary
term carries no sign of its own (it is built purely from digit and dot
characters), and the sign character depends only on the imaginary part. -/
theorem C8_sign_convention (x y : ℝ) (p : ℕ) :
    complex_latex x y p =
      "\\displaystyle " ++ fmt x p ++ "\\ " ++
        (if 0 ≤ y then "+" else "-") ++ "\\ j" ++ fmt |y| p ∧
    fmt |y| p = String.mk (renderNatL (round (|y| * 10 ^ p)).toNat p) ∧
    (∀ m q : ℕ, (renderNatL m q).all (fun c => c != '-') = true) :=
  ⟨rfl, fmt_nonneg_eq (abs_nonneg y) p, renderNatL_no_minus⟩

lemma fmt_five : fmt (5 : ℝ) 3 = "5.000" := by
  rw [fmt_nonneg_eq (by norm_num : (0:ℝ) ≤ 5),
      show (5:ℝ) * 10 ^ 3 = ((5000:ℤ) : ℝ) by norm_num, round_intCast]
  decide

lemma fmt_thirty : fmt (30 : ℝ) 3 = "30.000" := by
  rw [fmt_nonneg_eq (by norm_num : (0:ℝ) ≤ 30),
      show (30:ℝ) * 10 ^ 3 = ((30000:ℤ) : ℝ) by norm_num, round_intCast]
  decide

/-- C9: `polar_latex` renders the arrow form as magnitude, the angle
symbol, and the angle, and the exponential form as magnitude and the
angle inside `e^(j·...)`, both at precision `p`, with a degree marker
appended to the angle exactly when the unit is degrees; in particular
`polar_latex 5 30 3` in degree mode yields an arrow string that contains
`"5.000"` and `"30.000^\circ"`. -/
theorem C9_polar_format (mag ang : ℝ) (p : ℕ) :
    polar_latex mag ang p true =
      ("\\displaystyle " ++ fmt mag p ++ "\\,\\angle\\," ++
         (fmt ang p ++ "^\\circ"),
       "\\displaystyle " ++ fmt mag p ++ "\\,e^\x7bj\\," ++
         (fmt ang p ++ "^\\circ") ++ "\x7d") ∧
    polar_latex mag ang p false =
      ("\\displaystyle " ++ fmt mag p ++ "\\,\\angle\\," ++ fmt ang p,
       "\\displaystyle " ++ fmt mag p ++ "\\,e^\x7bj\\," ++ fmt ang p ++
         "\x7d") ∧
    (polar_latex 5 30 3 true).1 =
      "\\displaystyle 5.000\\,\\angle\\,30.000^\\circ" ∧
    containsSub "5.000" (polar_latex 5 30 3 true).1 = true ∧
    containsSub "30.000^\\circ" (polar_latex 5 30 3 true).1 = true := by
  have h1 : (polar_latex 5 30 3 true).1 =
      "\\displaystyle " ++ fmt 5 3 ++ "\\,\\angle\\," ++
        (fmt 30 3 ++ "^\\circ") := rfl
  refine ⟨rfl, rfl, ?_, ?_, ?_⟩
  · rw [h1, fmt_five, fmt_thirty]
    rfl
  · rw [h1, fmt_five, fmt_thirty]
    decide
  · rw [h1, fmt_five, fmt_thirty]
    decide

lemma summary_angle_rad_mem (z : ℂ) :
    summary_angle z false ∈ Set.Ioc (-Real.pi) Real.pi :=
  Complex.arg_mem_Ioc z

lemma summary_angle_deg_mem (z : ℂ) :
    summary_angle z true ∈ Set.Ioc (-180 : ℝ) 180 := by
  obtain ⟨h1, h2⟩ := Complex.arg_mem_Ioc z
  have hpos : (0:ℝ) < 180 / Real.pi := by positivity
  have e1 : -Real.pi * (180 / Real.pi) = -180 := by
    field_simp
    ring
  have e2 : Real.pi * (180 / Real.pi) = 180 := by field_simp
  have hs : summary_angle z true = Complex.arg z * (180 / Real.pi) := rfl
  constructor
  · rw [hs]
    have h := mul_lt_mul_of_pos_right h1 hpos
    rw [e1] at h
    exact h
  · rw [hs]
    have h := mul_le_mul_of_nonneg_right h2 hpos.le
    rw [e2] at h
    exact h

lemma scenario390 :
    (p2r_session "5.0" "390.0" true false 3).summary_ang = 30 := by
  have hm : parsedVal "5.0" = 5 := by
    rw [parsedVal, show parseFloat? "5.0" = some (50, 1) from by decide]
    norm_num
  have ha : parsedVal "390.0" = 390 := by
    rw [parsedVal, show parseFloat? "390.0" = some (3900, 1) from by decide]
    norm_num
  have hfield : (p2r_session "5.0" "390.0" true false 3).summary_ang =
      degrees (Complex.arg
        ⟨parsedVal "5.0" * Real.cos (radians (parsedVal "390.0")),
         parsedVal "5.0" * Real.sin (radians (parsedVal "390.0"))⟩) := rfl
  rw [hfield, hm, ha]
  have hrad : radians 390 = Real.pi / 6 + 2 * Real.pi := by rw [radians]; ring
  have hmem : Real.pi / 6 ∈ Set.Ioc (-Real.pi) Real.pi :=
    ⟨by linarith [Real.pi_pos], by linarith [Real.pi_pos]⟩
  have hz : (⟨5 * Real.cos (radians 390), 5 * Real.sin (radians 390)⟩ : ℂ) =
      ((5:ℝ) : ℂ) * (((Real.cos (Real.pi / 6) : ℝ) : ℂ) +
        ((Real.sin (Real.pi / 6) : ℝ) : ℂ) * Complex.I) := by
    apply Complex.ext
    · simp [hrad, Real.cos_add_two_pi]
    · simp [hrad, Real.sin_add_two_pi]
  rw [hz, Complex.arg_real_mul _ (by norm_num : (0:ℝ) < 5),
      Complex.ofReal_cos, Complex.ofReal_sin,
      Complex.arg_cos_add_sin_mul_I hmem, degrees_pi_div_six]

/-- C10: the numeric-summary angle (and the plot annotation angle before
display wrapping) is recomputed from the rectangular complex value `z`
via its principal argument, hence lies in `(-π, π]` radians, equivalently
`(-180, 180]` degrees, for every input, independently of the wrap
setting; in particular a user-entered angle of `390` degrees in
Polar → Rectangular mode appears as `30` in the numeric summary even
with wrapping off. -/
theorem C10_summary_from_z (magText angText xText yText : String)
    (deg : Bool) (p : ℕ) :
    (∀ z : ℂ, summary_angle z false ∈ Set.Ioc (-Real.pi) Real.pi) ∧
    (∀ z : ℂ, summary_angle z true ∈ Set.Ioc (-180 : ℝ) 180) ∧
    ((p2r_session magText angText deg true p).summary_ang =
        summary_angle (p2r_session magText angText deg true p).z deg ∧
     (p2r_session magText angText deg true p).summary_ang =
        (p2r_session magText angText deg false p).summary_ang ∧
     (p2r_session magText angText deg false p).plot_ang =
        (p2r_session magText angText deg false p).summary_ang) ∧
    ((r2p_session xText yText deg true p).summary_ang =
        summary_angle (r2p_session xText yText deg true p).z deg ∧
     (r2p_session xText yText deg true p).summary_ang =
        (r2p_session xText yText deg false p).summary_ang ∧
     (r2p_session xText yText deg false p).plot_ang =
        (r2p_session xText yText deg false p).summary_ang) ∧
    (p2r_session "5.0" "390.0" true false 3).summary_ang = 30 :=
  ⟨summary_angle_rad_mem, summary_angle_deg_mem,
   ⟨rfl, rfl, rfl⟩, ⟨rfl, rfl, rfl⟩, scenario390⟩

end Phasor
